import Mathlib

/-!
Verification development for the medical document retrieval pipeline.

This file gives a shallow embedding of the core logic of the repository:
the batch partitioner (aws_microservices/sharepoint_file_list/app.py,
batch_files), the retrieval orchestrator (document_processor.py,
DocumentProcessor.search), the encoder chunking logic
(DocumentProcessor.get_embedding, both the top-level and the app-service
variant), the segmenter (DocumentProcessor.get_chunks_with_pages with
is_template_text and extract_page_from_text), and the vector-store
services (services/vector_db/elasticsearch_service.py and
app/services/vector_db/opensearch_service.py).

External collaborators (the tiktoken tokenizer, the NLTK tokenizer and
stop-word list, the transformer model, the langchain text splitter, the
regex page-break splitter, and the Elasticsearch/OpenSearch servers) are
modelled as explicit function parameters; everything else is translated
from the Python source. Machine floats appear only in the two places
noted inline (the 80 percent context bound and the 20 percent overlap
count), where the integer comparisons the code performs coincide with
exact rational arithmetic.
-/

/-! ## Python string primitives

Executable models of the Python `str` operations the sources use:
`str.strip`, `str.split` (no argument: split on whitespace runs),
`" ".join`, `str.lower`, the `in` substring test, `str.isupper`, and
character classes. Python whitespace for these purposes is
space, tab, newline, carriage return, vertical tab and form feed. -/

def pyIsSpace (c : Char) : Bool :=
  c == ' ' || c == '\t' || c == '\n' || c == '\r' || c == '\x0b' || c == '\x0c'

/-- Model of Python str.strip: remove leading and trailing whitespace. -/
def pyStrip (s : String) : String :=
  ⟨((s.data.dropWhile pyIsSpace).reverse.dropWhile pyIsSpace).reverse⟩

/-- Helper for pySplitWs: accumulate the current word (reversed). -/
def splitWsAux : List Char → List Char → List (List Char)
  | [], acc => if acc = [] then [] else [acc.reverse]
  | c :: cs, acc =>
    if pyIsSpace c then
      if acc = [] then splitWsAux cs [] else acc.reverse :: splitWsAux cs []
    else splitWsAux cs (c :: acc)

/-- Model of Python str.split with no argument: maximal runs of
non-whitespace characters, empty strings never produced. -/
def pySplitWs (s : String) : List String :=
  (splitWsAux s.data []).map fun l => ⟨l⟩

/-- Model of Python join with a single space. -/
def joinSpace (l : List String) : String :=
  String.intercalate " " l

/-- Decides whether the first list is an initial segment of the second. -/
def startsWithChars : List Char → List Char → Bool
  | [], _ => true
  | _ :: _, [] => false
  | a :: as, b :: bs => a == b && startsWithChars as bs

/-- Decides whether the first list occurs contiguously in the second,
modelling the Python `in` operator on strings. -/
def containsChars (needle : List Char) : List Char → Bool
  | [] => startsWithChars needle []
  | b :: bs => startsWithChars needle (b :: bs) || containsChars needle bs

/-- Model of Python str.lower over the character list (ASCII case
mapping, which covers the sources involved). -/
def charsToLower (l : List Char) : List Char :=
  l.map Char.toLower

/-- Model of the Python test `kw.lower() in content.lower()`. -/
def containsCI (content kw : String) : Bool :=
  containsChars (charsToLower kw.data) (charsToLower content.data)

/-! ## Batch partitioner

Model of `batch_files(files_data, max_tokens_per_batch, model)` from
aws_microservices/sharepoint_file_list/app.py. The token count of an
item comes from the external tiktoken encoder applied to the formatted
file string, so it is a parameter `tok`. The loop keeps a current batch
and its token total; when adding the next item would push a non-empty
current batch past the budget, the batch is closed and a fresh one is
started with that item. -/

def batchFilesGo {α : Type} (tok : α → ℕ) (maxTokens : ℕ) :
    List α → List (List α) → List α → ℕ → List (List α)
  | [], batches, cur, _ => if cur.isEmpty then batches else batches ++ [cur]
  | f :: rest, batches, cur, curTok =>
    let t := tok f
    if maxTokens < curTok + t ∧ cur.isEmpty = false then
      batchFilesGo tok maxTokens rest (batches ++ [cur]) [f] t
    else
      batchFilesGo tok maxTokens rest batches (cur ++ [f]) (curTok + t)

/-- Model of batch_files: greedy order-preserving bin packing with the
token counter `tok` standing for num_tokens_from_string on the formatted
item. -/
def batch_files {α : Type} (tok : α → ℕ) (files_data : List α)
    (max_tokens_per_batch : ℕ) : List (List α) :=
  batchFilesGo tok max_tokens_per_batch files_data [] [] 0

/-- Summed token count of a batch. -/
def batchTokens {α : Type} (tok : α → ℕ) (b : List α) : ℕ :=
  (b.map tok).sum

/-- Oversized batches can only be singletons whose element is itself
over budget. -/
def OkBatch {α : Type} (tok : α → ℕ) (maxT : ℕ) (b : List α) : Prop :=
  maxT < batchTokens tok b → ∃ x, b = [x] ∧ maxT < tok x

/-! ## Retrieval orchestrator

Model of `DocumentProcessor.search` from document_processor.py
(lines 398 to 467), starting from the value `results` returned by the
vector store and the stop-word-filtered `query_words`; the embedding
call and the store query are external. The helpers
`create_keyword_summary` and `extract_date_near_keyword` only produce
string payload fields, so they are passed in as `summarize` and
`dateNear` (with the empty string standing for the None returned by
extract_date_near_keyword, matching its use in a Python `or` chain).
Python dicts keep insertion order, so they are modelled as association
lists updated in place. -/

/-- Model of Python `x or y` on strings: the empty string is falsy. -/
def pyOrStr (a b : String) : String :=
  if a = "" then b else a

/-- Fields of result.source that the search loop reads. The Python code
reads them with .get defaults page_number 1, extracted_date empty and
section main; the model carries the fields directly. -/
structure SearchHitSource where
  document_name : String
  content : String
  page_number : ℕ
  extracted_date : String
  sectionLabel : String
deriving DecidableEq

/-- Entry appended to keyword_matches; the Python dict keys are date,
content, page_number, summary and section. -/
structure KeywordMatch where
  date : String
  content : String
  page_number : ℕ
  summary : String
  sectionLabel : String
deriving DecidableEq

/-- Per-document grouped result: the Python dict with keys
document_name and keyword_matches. -/
structure DocResult where
  document_name : String
  keyword_matches : List (String × List KeywordMatch)
deriving DecidableEq

/-- Dict read: first binding of the key, if any. -/
def alGet {β : Type} : List (String × β) → String → Option β
  | [], _ => none
  | (k', v) :: rest, k => if k' = k then some v else alGet rest k

/-- Dict write: update the first binding in place, or append a new one,
preserving insertion order as Python dicts do. -/
def alSet {β : Type} : List (String × β) → String → β → List (String × β)
  | [], k, v => [(k, v)]
  | (k', v') :: rest, k, v =>
    if k' = k then (k, v) :: rest else (k', v') :: alSet rest k v

/-- Model of the body of the inner `for keyword in query_words` loop:
record a match only when the keyword occurs literally in the content. -/
def processKeyword (summarize dateNear : String → String → String)
    (src : SearchHitSource) (kmatches : List (String × List KeywordMatch))
    (kw : String) : List (String × List KeywordMatch) :=
  if containsCI src.content kw then
    let final_date := pyOrStr (dateNear src.content kw)
      (pyOrStr src.extracted_date "Not specified")
    let entry : KeywordMatch :=
      ⟨final_date, src.content, src.page_number,
        summarize src.content kw, src.sectionLabel⟩
    alSet kmatches kw ((alGet kmatches kw).getD [] ++ [entry])
  else kmatches

/-- Model of the body of the outer `for result in results` loop. -/
def processResult (summarize dateNear : String → String → String)
    (query_words : List String) (dres : List (String × DocResult))
    (src : SearchHitSource) : List (String × DocResult) :=
  let dres :=
    if (alGet dres src.document_name).isSome then dres
    else alSet dres src.document_name ⟨src.document_name, []⟩
  let doc := (alGet dres src.document_name).getD ⟨src.document_name, []⟩
  alSet dres src.document_name
    ⟨src.document_name,
      query_words.foldl (processKeyword summarize dateNear src) doc.keyword_matches⟩

/-- Grouping pass over all hits. -/
def collectResults (summarize dateNear : String → String → String)
    (query_words : List String) (results : List SearchHitSource) :
    List (String × DocResult) :=
  results.foldl (processResult summarize dateNear query_words) []

/-- Model of `any(len(matches) > 0 for matches in ...)`. -/
def hasAnyMatch (d : DocResult) : Bool :=
  d.keyword_matches.any fun kv => !kv.2.isEmpty

/-- Model of the final per-keyword cap: keep only the first three
collected matches. -/
def truncateMatches (d : DocResult) : DocResult :=
  ⟨d.document_name, d.keyword_matches.map fun kv => (kv.1, kv.2.take 3)⟩

/-- Model of DocumentProcessor.search after the vector-store call:
group hits by document, keep only documents with at least one literal
keyword match, then cap each keyword list at three entries. -/
def dp_search (summarize dateNear : String → String → String)
    (query_words : List String) (results : List SearchHitSource) :
    List (String × DocResult) :=
  (((collectResults summarize dateNear query_words results).filter
      fun kv => hasAnyMatch kv.2).map
    fun kv => (kv.1, truncateMatches kv.2))

/-! ## Encoder

Model of `DocumentProcessor.get_embedding` (document_processor.py lines
68 to 116, and the app-service variant at
app/services/document_processor.py lines 90 to 155). The tokenizer and
transformer are external: `tokenReps c` stands for the token-level
hidden states the model produces for the string `c`, one row per token.
Mean-pooling (`outputs.last_hidden_state.mean(dim=1)`) and the final
`np.mean(embeddings, axis=0)` are the same numpy mean along the first
axis, modelled by `npMeanAxis0`; its `none` result stands for numpy
outputs that are not well-formed vectors (the NaN scalar produced by a
mean over an empty axis, or an error on ragged input). The float
comparison `current_length + word_length > max_length * 0.8` on integer
left-hand sides coincides with the exact test `5*(l+w) > 4*max` because
the float `max_length * 0.8` errs above the exact product by less than
the distance to the next integer, and `int(len * 0.2)` coincides with
`len / 5` in integer division for the same reason. -/

/-- Model of the Python slice `l[-k:]`: for k = 0 Python returns the
whole list, otherwise the last k elements. -/
def pyTailSlice {α : Type} (l : List α) (k : ℕ) : List α :=
  if k = 0 then l else l.drop (l.length - k)

/-- Loop of the over-length branch of get_embedding: close the current
word chunk when the next word would push it past 80 percent of the max
length, seeding the next chunk with the trailing 20 percent of words. -/
def splitChunksGo (maxLen : ℕ) :
    List String → List String → List String → ℕ → List String
  | [], chunks, cur, _ =>
    if cur.isEmpty then chunks else chunks ++ [joinSpace cur]
  | w :: rest, chunks, cur, curLen =>
    let wl := w.length + 1
    if 4 * maxLen < 5 * (curLen + wl) then
      let overlap := pyTailSlice cur (cur.length / 5)
      splitChunksGo maxLen rest (chunks ++ [joinSpace cur]) (overlap ++ [w])
        ((overlap.map fun x => x.length + 1).sum + wl)
    else
      splitChunksGo maxLen rest chunks (cur ++ [w]) (curLen + wl)

/-- Sub-chunking of an over-length text, starting from `text.split()`. -/
def splitIntoChunks (maxLen : ℕ) (text : String) : List String :=
  splitChunksGo maxLen (pySplitWs text) [] [] 0

/-- Sequences a fallible map over a list: the loop collecting one
result per element, propagating the failure marker. -/
def optionMapList {α β : Type} (f : α → Option β) : List α → Option (List β)
  | [] => some []
  | a :: l =>
    match f a, optionMapList f l with
    | some b, some bs => some (b :: bs)
    | _, _ => none

/-- Model of `np.mean(rows, axis=0)`: elementwise average of the rows.
Returns none when numpy would not produce a well-formed vector: an
empty list of rows yields a NaN scalar, ragged rows raise. -/
def npMeanAxis0 (rows : List (List ℚ)) : Option (List ℚ) :=
  match rows with
  | [] => none
  | r :: rs =>
    if rs.all (fun row => row.length == r.length) then
      some ((List.range r.length).map fun i =>
        (((r :: rs).map fun row => row.getD i 0).sum) / ((r :: rs).length : ℚ))
    else none

/-- Model of the top-level DocumentProcessor.get_embedding: texts whose
character count exceeds the model max context are split into word
sub-chunks, each sub-chunk mean-pooled, and the sub-chunk vectors
averaged; shorter texts are mean-pooled directly with no blank check. -/
def dp_get_embedding (maxLen : ℕ) (tokenReps : String → List (List ℚ))
    (text : String) : Option (List ℚ) :=
  if maxLen < text.length then
    match optionMapList (fun c => npMeanAxis0 (tokenReps c))
        (splitIntoChunks maxLen text) with
    | some embs => npMeanAxis0 embs
    | none => none
  else
    npMeanAxis0 (tokenReps text)

/-- Model of the app-service get_embedding variant: same sub-chunking,
but blank sub-chunks are skipped, a blank short text raises ValueError,
and an empty embedding list raises ValueError. Error strings summarize
the corresponding raised exceptions. -/
def app_get_embedding (maxLen : ℕ) (tokenReps : String → List (List ℚ))
    (text : String) : Except String (List ℚ) :=
  if maxLen < text.length then
    match optionMapList (fun c => npMeanAxis0 (tokenReps c))
        ((splitIntoChunks maxLen text).filter fun c => pyStrip c != "") with
    | some embs =>
      if embs.isEmpty then
        .error "Failed to generate embeddings from text chunks"
      else
        match npMeanAxis0 embs with
        | some v => .ok v
        | none => .error "ragged chunk embeddings"
    | none => .error "empty model output for a chunk"
  else
    if pyStrip text = "" then
      .error "Cannot generate embedding for empty text"
    else
      match npMeanAxis0 (tokenReps text) with
      | some v =>
        if v.isEmpty then .error "Failed to generate embedding" else .ok v
      | none => .error "empty model output"

/-- Whitespace-only text of 513 characters, longer than the usual
512-token model max context. -/
def blank513 : String :=
  ⟨List.replicate 513 ' '⟩

/-! ## Index store services

Models of services/vector_db/elasticsearch_service.py and
app/services/vector_db/opensearch_service.py. The Elasticsearch and
OpenSearch servers are external; the store they maintain is modelled as
explicit state (`indexes` maps an index name to the dimension it was
created with, `docs` lists the indexed documents in arrival order), and
a backend acceptance predicate stands in for server-side behaviour of
the index call. The service-level control flow (existence checks, the
absence of any dimension or vector-length validation, the try/except
that converts backend exceptions into a False return) is translated
from the source. -/

/-- Chunk document as the vector-store services receive it; only the
fields the claims constrain are carried. -/
structure VDoc where
  embedding : List ℚ
  content : String
deriving DecidableEq

/-- State of the modelled store. -/
structure ESState where
  indexes : List (String × ℕ)
  docs : List (String × VDoc)
deriving DecidableEq

/-- Model of ElasticsearchService.create_index (equally of
OpenSearchService.create_index): if the index already exists the call
returns True immediately, with no dimension comparison; otherwise the
index is created with the requested dimension. -/
def es_create_index (st : ESState) (index_name : String) (dimensions : ℕ) :
    ESState × Bool :=
  if (alGet st.indexes index_name).isSome then
    (st, true)
  else
    ({ st with indexes := st.indexes ++ [(index_name, dimensions)] }, true)

/-- Model of ElasticsearchService.index_document (equally of
OpenSearchService.index_document): the document is handed to the
backend with no inspection of its embedding; `accept` models whether
the external server accepts the call, and a rejection is caught and
reported as False. -/
def es_index_document (accept : String → VDoc → Bool) (st : ESState)
    (index_name : String) (document : VDoc) : ESState × Bool :=
  if accept index_name document then
    ({ st with docs := st.docs ++ [(index_name, document)] }, true)
  else
    (st, false)

/-- Field names of one search hit as built by ElasticsearchService.search
in services/vector_db/elasticsearch_service.py (lines 99 to 104). -/
def esSearchHitFields : List String :=
  ["id", "score", "source"]

/-- Field names of one search hit as built by OpenSearchService.search in
app/services/vector_db/opensearch_service.py (lines 413 to 422). -/
def osSearchHitFields : List String :=
  ["document_id", "document_name", "page_number", "content", "score",
   "file_type", "keywords", "medical_terms"]

/-- Parameter names of VectorDBService.search as declared in
services/vector_db/base.py (line 23), after self. -/
def baseSearchParams : List String :=
  ["index_name", "query_vector", "top_k"]

/-- Parameter names of OpenSearchService.search (line 357), after
self. -/
def osSearchParams : List String :=
  ["query_vector", "top_k"]

/-! ## Segmenter

Model of `DocumentProcessor.get_chunks_with_pages` (document_processor.py
lines 215 to 326) with its helpers `is_template_text` (lines 118 to 130)
and `extract_page_from_text` (lines 139 to 158). Two collaborators are
parameters: `pageSplit` is the cascade of `re.split` calls over the five
page-break patterns (the regex engine is external; the model receives
the resulting part list), and `splitText` is the langchain
RecursiveCharacterTextSplitter. `extractKw` stands for extract_keywords,
whose NLTK tokenizer and stop-word list are external. The regexes inside
is_template_text and extract_page_from_text are translated directly:
each is either a case-insensitive literal search, a bracket-pair search
(dot does not cross newlines), a whole-string whitespace or number test
(no MULTILINE flag on the is_template_text searches), or a per-line test
(MULTILINE on the extract_page_from_text searches). -/

/-- Model of Python str.isupper: at least one cased character and no
lowercase cased character (ASCII letters are the cased characters
here). -/
def pyIsUpperStr (s : String) : Bool :=
  s.data.any (fun c => c.isAlpha) && s.data.all (fun c => !c.isAlpha || c.isUpper)

/-- Consumes further lowercase letters, then requires a colon; the tail
of the regex `[A-Z][a-z]+:` anchored by re.match. -/
def afterLowerRun : List Char → Bool
  | [] => false
  | d :: rest => if d.isLower then afterLowerRun rest else d == ':'

/-- Model of `re.match(r^[A-Z][a-z]+:, chunk)`: an uppercase letter, at
least one lowercase letter, then a colon, at the start of the string. -/
def matchTitlePat (s : String) : Bool :=
  match s.data with
  | c :: d :: rest => c.isUpper && d.isLower && afterLowerRun rest
  | _ => false

/-- Literal template patterns of is_template_text, lowercased; each is
searched case-insensitively as a substring. -/
def templateLiterals : List String :=
  ["please index all documents you have reviewed",
   "this should include medical records",
   "va benefit records",
   "transcripts",
   "medical record review",
   "record index"]

/-- Seeks a closing bracket before the next newline, for the pattern
matching text in square brackets. -/
def seekCloseBracket : List Char → Bool
  | [] => false
  | c :: rest =>
    if c = ']' then true else if c = '\n' then false else seekCloseBracket rest

/-- Decides whether the square-bracket pattern matches: an opening
bracket with a matching close on the same line. -/
def hasBracketPair : List Char → Bool
  | [] => false
  | c :: rest => (c == '[' && seekCloseBracket rest) || hasBracketPair rest

/-- Model of DocumentProcessor.is_template_text: any of the literal
patterns case-insensitively, bracketed text, a whitespace-only string,
or a bare number (the two anchored patterns have no MULTILINE flag, so
they test the whole string). -/
def is_template_text (s : String) : Bool :=
  (templateLiterals.any fun p => containsChars p.data (charsToLower s.data))
  || hasBracketPair s.data
  || s.data.all pyIsSpace
  || (!(pyStrip s).data.isEmpty && (pyStrip s).data.all Char.isDigit)

/-- Numeric value of a digit run, as Python int() reads it. -/
def digitsVal (l : List Char) : ℕ :=
  l.foldl (fun n c => 10 * n + (c.toNat - 48)) 0

/-- Match at the current position: the literal, then whitespace (at
least one character when reqWs, the plus of the regex; otherwise the
star), then at least one digit, whose run is the captured group. -/
def matchLitWsDigits (lit : List Char) (reqWs : Bool) (l : List Char) :
    Option ℕ :=
  if startsWithChars lit l then
    let rest := (l.drop lit.length)
    let ds := (rest.dropWhile pyIsSpace).takeWhile Char.isDigit
    if (!reqWs || !(rest.takeWhile pyIsSpace).isEmpty) && !ds.isEmpty then
      some (digitsVal ds)
    else none
  else none

/-- Leftmost match of the literal-whitespace-digits pattern, as
re.search finds it. -/
def searchLitWsDigits (lit : List Char) (reqWs : Bool) : List Char → Option ℕ
  | [] => none
  | c :: rest =>
    match matchLitWsDigits lit reqWs (c :: rest) with
    | some n => some n
    | none => searchLitWsDigits lit reqWs rest

/-- Splits on newline characters keeping empty lines, the line structure
that MULTILINE anchors see. -/
def splitOnNl : List Char → List (List Char)
  | [] => [[]]
  | c :: rest =>
    if c = '\n' then [] :: splitOnNl rest
    else
      match splitOnNl rest with
      | [] => [[c]]
      | l :: ls => (c :: l) :: ls

/-- Line test for the anchored pattern digits-only line. -/
def lineAllDigits (l : List Char) : Option ℕ :=
  if !l.isEmpty && l.all Char.isDigit then some (digitsVal l) else none

/-- Line test for the anchored pattern whitespace, digits, whitespace. -/
def lineWsDigitsWs (l : List Char) : Option ℕ :=
  let t := l.dropWhile pyIsSpace
  let ds := t.takeWhile Char.isDigit
  if !ds.isEmpty && (t.dropWhile Char.isDigit).all pyIsSpace then
    some (digitsVal ds)
  else none

/-- First line matching the given test, in order, as the MULTILINE
search finds the leftmost match. -/
def firstLineVal (p : List Char → Option ℕ) : List (List Char) → Option ℕ
  | [] => none
  | l :: ls =>
    match p l with
    | some n => some n
    | none => firstLineVal p ls

/-- Model of DocumentProcessor.extract_page_from_text: the seven
patterns are tried in order and the first match wins. -/
def extract_page_from_text (s : String) : Option ℕ :=
  (searchLitWsDigits "Page".data true s.data).orElse fun _ =>
  (searchLitWsDigits "page".data true s.data).orElse fun _ =>
  (searchLitWsDigits "PAGE".data true s.data).orElse fun _ =>
  (searchLitWsDigits "P.".data false s.data).orElse fun _ =>
  (searchLitWsDigits "p.".data false s.data).orElse fun _ =>
  (firstLineVal lineAllDigits (splitOnNl s.data)).orElse fun _ =>
  firstLineVal lineWsDigitsWs (splitOnNl s.data)

/-- Model of the Python truthiness idiom `extract_page_from_text(chunk)
or page_number`: a zero page number is falsy and falls back. -/
def pyOrNat (o : Option ℕ) (default : ℕ) : ℕ :=
  match o with
  | some n => if n = 0 then default else n
  | none => default

/-- Processed chunk as built by get_chunks_with_pages; the Python dict
keys are text, page_number, section, context and keywords. -/
structure PChunk where
  text : String
  page_number : ℕ
  sectionLabel : String
  context : String
  keywords : List String
deriving DecidableEq

/-- Loop state of the window-processing pass: the current section
label, the rolling section context, and the chunks emitted so far. -/
structure SegState where
  current_section : String
  section_context : List String
  acc : List PChunk
deriving DecidableEq

/-- Model of the slice `l[-3:]` with a fixed positive count. -/
def lastK {α : Type} (k : ℕ) (l : List α) : List α :=
  l.drop (l.length - k)

/-- Model of the body of the window loop of get_chunks_with_pages:
skip blank windows, skip template windows, promote section headers, and
emit windows of fifty or more stripped characters with their section
context, keywords, and page (overridden by an explicit in-text
marker). -/
def stepWindow (extractKw : String → List String) (page : ℕ)
    (s : SegState) (chunk : String) : SegState :=
  if pyStrip chunk = "" then s
  else if is_template_text chunk then s
  else if pyIsUpperStr chunk || matchTitlePat chunk then
    { s with current_section := chunk, section_context := [chunk] }
  else
    let ctx := s.section_context ++ [chunk]
    if 50 ≤ (pyStrip chunk).length then
      let context_text := joinSpace (lastK 3 ctx)
      { s with
          section_context := ctx,
          acc := s.acc ++
            [⟨chunk, pyOrNat (extract_page_from_text chunk) page,
              s.current_section, context_text, extractKw context_text⟩] }
    else { s with section_context := ctx }

/-- Window-processing pass over the page chunks, threading the section
state across pages as the source does. -/
def processPages (splitText extractKw : String → List String)
    (pcs : List (String × ℕ)) : List PChunk :=
  (pcs.foldl
    (fun s pc => (splitText pc.1).foldl (stepWindow extractKw pc.2) s)
    ⟨"main", [], []⟩).acc

/-- Model of the page-number assignment after a successful page-break
split: enumerate all parts, skip blank ones, strip the kept ones. -/
def numberParts : ℕ → List String → List (String × ℕ)
  | _, [] => []
  | i, p :: ps =>
    if pyStrip p = "" then numberParts (i + 1) ps
    else (pyStrip p, i + 1) :: numberParts (i + 1) ps

/-- Model of the 500-words-per-page fallback estimation; fuel is the
word count, which bounds the number of 500-word groups. -/
def pagesByWordsGo : ℕ → ℕ → List String → List (String × ℕ)
  | 0, _, _ => []
  | _, _, [] => []
  | fuel + 1, pg, w :: rest =>
    (joinSpace (List.take 500 (w :: rest)), pg) ::
      pagesByWordsGo fuel (pg + 1) (List.drop 500 (w :: rest))

/-- Pages estimated from the word list at 500 words per page. -/
def pagesByWords (ws : List String) : List (String × ℕ) :=
  pagesByWordsGo ws.length 1 ws

/-- Page chunk construction: explicit page breaks when the external
split produced more than one part, otherwise the 500-word estimate. -/
def pageChunks (pageSplit : String → List String) (text : String) :
    List (String × ℕ) :=
  let parts := pageSplit text
  if 1 < parts.length then numberParts 0 parts
  else pagesByWords (pySplitWs text)

/-- Model of DocumentProcessor.get_chunks_with_pages: page chunking,
window processing, and the single-chunk fallback when nothing was
emitted and the document is not blank. -/
def get_chunks_with_pages (pageSplit splitText : String → List String)
    (extractKw : String → List String) (text : String) : List PChunk :=
  let processed := processPages splitText extractKw (pageChunks pageSplit text)
  if processed.isEmpty && pyStrip text != "" then
    [⟨text, 1, "main", text, extractKw text⟩]
  else processed

/-- Chunks whose page was not overridden by a truthy in-text marker:
extract_page_from_text found nothing, or found zero, which the Python
`or` discards. -/
def notOverridden (c : PChunk) : Bool :=
  match extract_page_from_text c.text with
  | some n => n == 0
  | none => true

/-- Pages of the non-overridden chunks in emission order. -/
def filteredPages (cs : List PChunk) : List ℕ :=
  (cs.filter notOverridden).map PChunk.page_number

/-- Keyword-match maps in which every recorded entry is a literal
match: the keyword occurs in the entry content case-insensitively. -/
def LitMatches (km : List (String × List KeywordMatch)) : Prop :=
  ∀ kw lst, (kw, lst) ∈ km → ∀ e ∈ lst, containsCI e.content kw = true

/-- Grouped results in which every document obeys LitMatches. -/
def LitMatchesAll (dres : List (String × DocResult)) : Prop :=
  ∀ doc d, (doc, d) ∈ dres → LitMatches d.keyword_matches

theorem batchFilesGo_flatten {α : Type} (tok : α → ℕ) (maxT : ℕ) :
    ∀ (items : List α) (batches : List (List α)) (cur : List α) (curTok : ℕ),
      (batchFilesGo tok maxT items batches cur curTok).flatten
        = batches.flatten ++ cur ++ items := by
  intro items
  induction items with
  | nil =>
    intro batches cur curTok
    match cur with
    | [] => simp [batchFilesGo]
    | c :: cs => simp [batchFilesGo]
  | cons f rest ih =>
    intro batches cur curTok
    by_cases h : maxT < curTok + tok f ∧ cur.isEmpty = false
    · simp only [batchFilesGo, if_pos h, ih]
      simp
    · simp only [batchFilesGo, if_neg h, ih]
      simp

theorem batchFilesGo_oversized {α : Type} (tok : α → ℕ) (maxT : ℕ) :
    ∀ (items : List α) (batches : List (List α)) (cur : List α) (curTok : ℕ),
      (∀ b ∈ batches, OkBatch tok maxT b) → OkBatch tok maxT cur →
      curTok = batchTokens tok cur →
      ∀ b ∈ batchFilesGo tok maxT items batches cur curTok, OkBatch tok maxT b := by
  intro items
  induction items with
  | nil =>
    intro batches cur curTok hb hc _ b hmem
    match cur with
    | [] =>
      simp only [batchFilesGo, List.isEmpty_nil, if_pos] at hmem
      exact hb b hmem
    | c :: cs =>
      simp only [batchFilesGo, List.isEmpty_cons, Bool.false_eq_true, if_false,
        List.mem_append, List.mem_singleton] at hmem
      rcases hmem with hmem | hmem
      · exact hb b hmem
      · subst hmem
        exact hc
  | cons f rest ih =>
    intro batches cur curTok hb hc hcur b hmem
    by_cases h : maxT < curTok + tok f ∧ cur.isEmpty = false
    · simp only [batchFilesGo, if_pos h] at hmem
      refine ih (batches ++ [cur]) [f] (tok f) ?_ ?_ ?_ b hmem
      · intro b' hb'
        rcases List.mem_append.mp hb' with hb' | hb'
        · exact hb b' hb'
        · rcases List.mem_singleton.mp hb' with rfl
          exact hc
      · intro hover
        exact ⟨f, rfl, by simpa [batchTokens] using hover⟩
      · simp [batchTokens]
    · simp only [batchFilesGo, if_neg h] at hmem
      refine ih batches (cur ++ [f]) (curTok + tok f) hb ?_ ?_ b hmem
      · intro hover
        rcases not_and_or.mp h with h1 | h1
        · exfalso
          apply h1
          have : batchTokens tok (cur ++ [f]) = curTok + tok f := by
            simp [batchTokens, hcur]
          omega
        · have hnil : cur = [] := by
            cases cur with
            | nil => rfl
            | cons c cs => simp at h1
          subst hnil
          refine ⟨f, by simp, ?_⟩
          simpa [batchTokens] using hover
      · simp [batchTokens, hcur]

theorem foldl_preserve {σ α : Type} (P : σ → Prop) (f : σ → α → σ)
    (h : ∀ s a, P s → P (f s a)) :
    ∀ (l : List α) (s : σ), P s → P (l.foldl f s) := by
  intro l
  induction l with
  | nil => intro s hs; exact hs
  | cons a l ih => intro s hs; exact ih _ (h s a hs)

theorem alGet_mem {β : Type} :
    ∀ (m : List (String × β)) (k : String) (v : β),
      alGet m k = some v → (k, v) ∈ m := by
  intro m
  induction m with
  | nil => intro k v h; simp [alGet] at h
  | cons p rest ih =>
    intro k v h
    obtain ⟨k', v'⟩ := p
    by_cases hk : k' = k
    · subst hk
      simp only [alGet, if_true, eq_self_iff_true, Option.some.injEq] at h
      subst h
      exact List.mem_cons_self _ _
    · simp only [alGet, if_neg hk] at h
      exact List.mem_cons_of_mem _ (ih k v h)

theorem alSet_mem {β : Type} :
    ∀ (m : List (String × β)) (k : String) (v : β) (k₁ : String) (v₁ : β),
      (k₁, v₁) ∈ alSet m k v → (k₁, v₁) ∈ m ∨ (k₁ = k ∧ v₁ = v) := by
  intro m
  induction m with
  | nil =>
    intro k v k₁ v₁ h
    simp only [alSet, List.mem_singleton, Prod.mk.injEq] at h
    exact Or.inr h
  | cons p rest ih =>
    intro k v k₁ v₁ h
    obtain ⟨k', v'⟩ := p
    by_cases hk : k' = k
    · subst hk
      simp only [alSet, if_true, eq_self_iff_true, List.mem_cons,
        Prod.mk.injEq] at h
      rcases h with h | h
      · exact Or.inr h
      · exact Or.inl (List.mem_cons_of_mem _ h)
    · simp only [alSet, if_neg hk, List.mem_cons] at h
      rcases h with h | h
      · exact Or.inl (by simp [h])
      · rcases ih k v k₁ v₁ h with h1 | h1
        · exact Or.inl (List.mem_cons_of_mem _ h1)
        · exact Or.inr h1

/-- C1: for every item list and every token budget, batch_files returns
batches whose concatenation reproduces the input sequence, every batch
whose summed token count exceeds the budget is a singleton whose item
is itself over budget, and on token counts 40, 40, 40, 150, 10 with
budget 100 the batches are exactly as the scenario states. -/
theorem batch_files_concat_and_oversized {α : Type} (tok : α → ℕ)
    (files_data : List α) (maxT : ℕ) :
    (batch_files tok files_data maxT).flatten = files_data ∧
    (∀ b ∈ batch_files tok files_data maxT,
      maxT < batchTokens tok b → ∃ x, b = [x] ∧ maxT < tok x) ∧
    batch_files (fun n => n) [40, 40, 40, 150, 10] 100
      = [[40, 40], [40], [150], [10]] := by
  refine ⟨?_, ?_, by decide⟩
  · simpa using batchFilesGo_flatten tok maxT files_data [] [] 0
  · intro b hb
    have h0 : OkBatch tok maxT ([] : List α) := by
      intro h
      simp [batchTokens] at h
    exact batchFilesGo_oversized tok maxT files_data [] [] 0
      (by intro b' hb'; simp at hb') h0 (by simp [batchTokens]) b hb

/-- Witness for C1: the theorem applied at the scenario input. -/
theorem batch_files_scenario_witness :
    batch_files (fun n => n) [40, 40, 40, 150, 10] 100
      = [[40, 40], [40], [150], [10]] ∧
    (batch_files (fun n => n) [40, 40, 40, 150, 10] 100).flatten
      = [40, 40, 40, 150, 10] :=
  ⟨(batch_files_concat_and_oversized (fun n => n) [40, 40, 40, 150, 10] 100).2.2,
   (batch_files_concat_and_oversized (fun n => n) [40, 40, 40, 150, 10] 100).1⟩

theorem processKeyword_lit (summarize dateNear : String → String → String)
    (src : SearchHitSource) (kw₀ : String)
    (km : List (String × List KeywordMatch)) (hP : LitMatches km) :
    LitMatches (processKeyword summarize dateNear src km kw₀) := by
  by_cases hc : containsCI src.content kw₀ = true
  · unfold processKeyword
    rw [if_pos hc]
    intro kw lst hmem e he
    rcases alSet_mem km kw₀ _ kw lst hmem with h | ⟨hk, hv⟩
    · exact hP kw lst h e he
    · subst hk
      subst hv
      rcases List.mem_append.mp he with h1 | h1
      · cases hg : alGet km kw with
        | none =>
          rw [hg] at h1
          simp at h1
        | some old =>
          rw [hg] at h1
          exact hP kw old (alGet_mem km kw old hg) e h1
      · have he2 := List.mem_singleton.mp h1
        subst he2
        exact hc
  · unfold processKeyword
    rw [if_neg hc]
    exact hP

theorem processResult_lit (summarize dateNear : String → String → String)
    (qw : List String) (src : SearchHitSource)
    (dres : List (String × DocResult)) (hP : LitMatchesAll dres) :
    LitMatchesAll (processResult summarize dateNear qw dres src) := by
  have hP' : LitMatchesAll
      (if (alGet dres src.document_name).isSome then dres
       else alSet dres src.document_name ⟨src.document_name, []⟩) := by
    by_cases hs : (alGet dres src.document_name).isSome
    · rw [if_pos hs]
      exact hP
    · rw [if_neg hs]
      intro doc d hmem
      rcases alSet_mem dres src.document_name _ doc d hmem with h | ⟨_, hv⟩
      · exact hP doc d h
      · subst hv
        intro kw lst hk
        simp at hk
  have hdoc : LitMatches
      ((alGet (if (alGet dres src.document_name).isSome then dres
          else alSet dres src.document_name ⟨src.document_name, []⟩)
        src.document_name).getD ⟨src.document_name, []⟩).keyword_matches := by
    cases hg : alGet (if (alGet dres src.document_name).isSome then dres
        else alSet dres src.document_name ⟨src.document_name, []⟩)
        src.document_name with
    | none =>
      intro kw lst hk
      simp [Option.getD] at hk
    | some d₀ =>
      exact hP' src.document_name d₀ (alGet_mem _ _ _ hg)
  have hkm := foldl_preserve LitMatches
    (processKeyword summarize dateNear src)
    (fun km kw h => processKeyword_lit summarize dateNear src kw km h)
    qw _ hdoc
  intro doc d hmem
  simp only [processResult] at hmem
  rcases alSet_mem _ src.document_name _ doc d hmem with h | ⟨_, hv⟩
  · exact hP' doc d h
  · subst hv
    exact hkm

theorem collectResults_lit (summarize dateNear : String → String → String)
    (qw : List String) (results : List SearchHitSource) :
    LitMatchesAll (collectResults summarize dateNear qw results) :=
  foldl_preserve LitMatchesAll (processResult summarize dateNear qw)
    (fun st src h => processResult_lit summarize dateNear qw src st h)
    results [] (by intro doc d h; simp at h)

/-- C2 counterexample: the query chest pain against one literal-match
hit (docA) and one semantically-paraphrased hit with no literal keyword
occurrence (docB) returns a grouped map containing only docA; the
semantic-only chunk is dropped entirely rather than returned with a
semantic-only flag. -/
theorem search_drops_semantic_only_hit :
    ((dp_search (fun _ _ => "") (fun _ _ => "") ["chest", "pain"]
        [⟨"docA", "Patient reports chest pain today", 1, "", "main"⟩,
         ⟨"docB", "discomfort and pressure in the thorax region", 1, "", "main"⟩]).map
      Prod.fst = ["docA"]) ∧
    alGet (dp_search (fun _ _ => "") (fun _ _ => "") ["chest", "pain"]
        [⟨"docA", "Patient reports chest pain today", 1, "", "main"⟩,
         ⟨"docB", "discomfort and pressure in the thorax region", 1, "", "main"⟩])
      "docB" = none := by decide

/-- C2 as amended: DocumentProcessor.search returns literal matches
only. Every entry of every keyword list in the grouped result contains
that query keyword in its content, case-insensitively; hits with no
literal keyword occurrence never appear, and no semantic-only flag
exists in the result. -/
theorem search_returns_only_literal_matches
    (summarize dateNear : String → String → String) (qw : List String)
    (results : List SearchHitSource) (doc : String) (d : DocResult)
    (kw : String) (lst : List KeywordMatch) (e : KeywordMatch)
    (hd : (doc, d) ∈ dp_search summarize dateNear qw results)
    (hkw : (kw, lst) ∈ d.keyword_matches) (he : e ∈ lst) :
    containsCI e.content kw = true := by
  simp only [dp_search] at hd
  rcases List.mem_map.mp hd with ⟨⟨doc₀, d₀⟩, hkv, heq⟩
  have h1 : doc₀ = doc := congrArg Prod.fst heq
  have h2 : truncateMatches d₀ = d := congrArg Prod.snd heq
  subst h1
  subst h2
  have hmem : (doc₀, d₀) ∈ collectResults summarize dateNear qw results :=
    (List.mem_filter.mp hkv).1
  have hL : LitMatches d₀.keyword_matches :=
    collectResults_lit summarize dateNear qw results doc₀ d₀ hmem
  simp only [truncateMatches] at hkw
  rcases List.mem_map.mp hkw with ⟨⟨kw₀, full⟩, hfull, heq2⟩
  have hk : kw₀ = kw := congrArg Prod.fst heq2
  have hl : full.take 3 = lst := congrArg Prod.snd heq2
  subst hk
  rw [← hl] at he
  exact hL kw₀ full hfull e (List.take_subset 3 full he)

/-- Witness for C2 as amended, at the literal docA hit. -/
theorem search_literal_match_witness :
    containsCI "Patient reports chest pain today" "chest" = true :=
  search_returns_only_literal_matches (fun _ _ => "") (fun _ _ => "")
    ["chest", "pain"]
    [⟨"docA", "Patient reports chest pain today", 1, "", "main"⟩,
     ⟨"docB", "discomfort and pressure in the thorax region", 1, "", "main"⟩]
    "docA"
    ⟨"docA",
      [("chest", [⟨"Not specified", "Patient reports chest pain today", 1, "", "main"⟩]),
       ("pain", [⟨"Not specified", "Patient reports chest pain today", 1, "", "main"⟩])]⟩
    "chest"
    [⟨"Not specified", "Patient reports chest pain today", 1, "", "main"⟩]
    ⟨"Not specified", "Patient reports chest pain today", 1, "", "main"⟩
    (by decide) (by decide) (by decide)

/-- C10: in the grouped result of DocumentProcessor.search every
keyword list holds at most three entries, and is exactly the first
three entries of the list collected before the final truncation pass;
later hits for that keyword are dropped. -/
theorem keyword_matches_truncated_to_three
    (summarize dateNear : String → String → String) (qw : List String)
    (results : List SearchHitSource) (doc : String) (d : DocResult)
    (kw : String) (lst : List KeywordMatch)
    (hd : (doc, d) ∈ dp_search summarize dateNear qw results)
    (hkw : (kw, lst) ∈ d.keyword_matches) :
    lst.length ≤ 3 ∧
    ∃ d₀ full,
      (doc, d₀) ∈ (collectResults summarize dateNear qw results).filter
        (fun kv => hasAnyMatch kv.2) ∧
      (kw, full) ∈ d₀.keyword_matches ∧ lst = full.take 3 := by
  simp only [dp_search] at hd
  rcases List.mem_map.mp hd with ⟨⟨doc₀, d₀⟩, hkv, heq⟩
  have h1 : doc₀ = doc := congrArg Prod.fst heq
  have h2 : truncateMatches d₀ = d := congrArg Prod.snd heq
  subst h1
  subst h2
  simp only [truncateMatches] at hkw
  rcases List.mem_map.mp hkw with ⟨⟨kw₀, full⟩, hfull, heq2⟩
  have hk : kw₀ = kw := congrArg Prod.fst heq2
  have hl : full.take 3 = lst := congrArg Prod.snd heq2
  subst hk
  subst hl
  exact ⟨List.length_take_le 3 full, d₀, full, hkv, hfull, rfl⟩

/-- Witness for C10: four hits for the keyword pain in one document are
cut down to the first three. -/
theorem keyword_matches_truncation_witness :
    ([(⟨"Not specified", "pain", 1, "", "main"⟩ : KeywordMatch),
      ⟨"Not specified", "pain", 2, "", "main"⟩,
      ⟨"Not specified", "pain", 3, "", "main"⟩]).length ≤ 3 ∧
    ∃ d₀ full,
      ("D", d₀) ∈ (collectResults (fun _ _ => "") (fun _ _ => "") ["pain"]
          [⟨"D", "pain", 1, "", "main"⟩, ⟨"D", "pain", 2, "", "main"⟩,
           ⟨"D", "pain", 3, "", "main"⟩, ⟨"D", "pain", 4, "", "main"⟩]).filter
        (fun kv => hasAnyMatch kv.2) ∧
      ("pain", full) ∈ d₀.keyword_matches ∧
      [(⟨"Not specified", "pain", 1, "", "main"⟩ : KeywordMatch),
       ⟨"Not specified", "pain", 2, "", "main"⟩,
       ⟨"Not specified", "pain", 3, "", "main"⟩] = full.take 3 :=
  keyword_matches_truncated_to_three (fun _ _ => "") (fun _ _ => "") ["pain"]
    [⟨"D", "pain", 1, "", "main"⟩, ⟨"D", "pain", 2, "", "main"⟩,
     ⟨"D", "pain", 3, "", "main"⟩, ⟨"D", "pain", 4, "", "main"⟩]
    "D"
    ⟨"D", [("pain",
      [⟨"Not specified", "pain", 1, "", "main"⟩,
       ⟨"Not specified", "pain", 2, "", "main"⟩,
       ⟨"Not specified", "pain", 3, "", "main"⟩])]⟩
    "pain"
    [⟨"Not specified", "pain", 1, "", "main"⟩,
     ⟨"Not specified", "pain", 2, "", "main"⟩,
     ⟨"Not specified", "pain", 3, "", "main"⟩]
    (by decide) (by decide)

theorem splitChunksGo_ne_nil (maxLen : ℕ) :
    ∀ (ws chunks cur : List String) (curLen : ℕ),
      cur ≠ [] ∨ ws ≠ [] →
      splitChunksGo maxLen ws chunks cur curLen ≠ [] := by
  intro ws
  induction ws with
  | nil =>
    intro chunks cur curLen h
    rcases h with h | h
    · match cur, h with
      | c :: cs, _ => simp [splitChunksGo]
    · exact absurd rfl h
  | cons w rest ih =>
    intro chunks cur curLen _
    simp only [splitChunksGo]
    by_cases hc : 4 * maxLen < 5 * (curLen + (w.length + 1))
    · rw [if_pos hc]
      exact ih _ _ _ (Or.inl (by simp))
    · rw [if_neg hc]
      exact ih _ _ _ (Or.inl (by simp))

theorem npMeanAxis0_length (rows : List (List ℚ)) (D : ℕ)
    (hne : rows ≠ []) (hall : ∀ r ∈ rows, r.length = D) :
    ∃ v, npMeanAxis0 rows = some v ∧ v.length = D := by
  match rows, hne with
  | r :: rs, _ =>
    have hr : r.length = D := hall r (List.mem_cons_self _ _)
    have hck : rs.all (fun row => row.length == r.length) = true := by
      rw [List.all_eq_true]
      intro row hrow
      have := hall row (List.mem_cons_of_mem _ hrow)
      simp [this, hr]
    have hstep : npMeanAxis0 (r :: rs) =
        if (rs.all fun row => row.length == r.length) = true then
          some ((List.range r.length).map fun i =>
            (((r :: rs).map fun row => row.getD i 0).sum) /
              ((r :: rs).length : ℚ))
        else none := rfl
    exact ⟨_, by rw [hstep, if_pos hck], by simp [hr]⟩

theorem optionMapList_exists {α β : Type} (f : α → Option β) (P : β → Prop) :
    ∀ (l : List α), (∀ a ∈ l, ∃ b, f a = some b ∧ P b) →
      ∃ bs, optionMapList f l = some bs ∧ bs.length = l.length ∧
        ∀ b ∈ bs, P b := by
  intro l
  induction l with
  | nil =>
    intro _
    exact ⟨[], rfl, rfl, by simp⟩
  | cons a l ih =>
    intro h
    obtain ⟨b, hb, hPb⟩ := h a (List.mem_cons_self _ _)
    obtain ⟨bs, hbs, hlen, hPs⟩ := ih fun x hx => h x (List.mem_cons_of_mem _ hx)
    refine ⟨b :: bs, ?_, by simp [hlen], ?_⟩
    · simp [optionMapList, hb, hbs]
    · intro x hx
      rcases List.mem_cons.mp hx with hx | hx
      · subst hx
        exact hPb
      · exact hPs x hx

set_option maxRecDepth 20000 in
/-- C3 counterexample: a whitespace-only text of 513 characters exceeds
the 512 model max context, splits into zero word sub-chunks, and
get_embedding returns the mean of an empty list, which is not a vector
of any fixed dimension D; the model marks that ill-formed numpy result
as none. -/
theorem get_embedding_whitespace_counterexample :
    512 < blank513.length ∧
    dp_get_embedding 512 (fun _ => [[1]]) blank513 = none := by decide

/-- C3 as amended: for every text longer than the model max context
that contains at least one word, and every model producing nonempty
token representations of width D, get_embedding returns exactly one
vector of dimension D, the average of the mean-pooled sub-chunk
vectors. -/
theorem get_embedding_long_text_single_vector
    (maxLen D : ℕ) (tokenReps : String → List (List ℚ)) (text : String)
    (hlong : maxLen < text.length)
    (hwords : pySplitWs text ≠ [])
    (hmodel : ∀ c, tokenReps c ≠ [] ∧ ∀ r ∈ tokenReps c, r.length = D) :
    ∃ v, dp_get_embedding maxLen tokenReps text = some v ∧ v.length = D := by
  unfold dp_get_embedding
  rw [if_pos hlong]
  have hchunks : splitIntoChunks maxLen text ≠ [] := by
    unfold splitIntoChunks
    exact splitChunksGo_ne_nil maxLen (pySplitWs text) [] [] 0 (Or.inr hwords)
  have hper : ∀ c ∈ splitIntoChunks maxLen text,
      ∃ v, npMeanAxis0 (tokenReps c) = some v ∧ v.length = D := fun c _ =>
    npMeanAxis0_length (tokenReps c) D (hmodel c).1 (hmodel c).2
  obtain ⟨embs, hmap, hlen, hP⟩ :=
    optionMapList_exists (fun c => npMeanAxis0 (tokenReps c))
      (fun v => v.length = D) (splitIntoChunks maxLen text) hper
  rw [hmap]
  have hembs : embs ≠ [] := by
    intro h
    subst h
    exact hchunks (List.length_eq_zero.mp hlen.symm)
  exact npMeanAxis0_length embs D hembs hP

set_option maxRecDepth 20000 in
/-- Witness for C3 as amended: a 600-character text over a 512 limit
with a model of width 2 yields one vector of dimension 2. -/
theorem get_embedding_long_text_witness :
    ∃ v, dp_get_embedding 512 (fun _ => [[1, 2], [3, 4]])
        (joinSpace (List.replicate 120 "abcd")) = some v ∧ v.length = 2 :=
  get_embedding_long_text_single_vector 512 2 (fun _ => [[1, 2], [3, 4]])
    (joinSpace (List.replicate 120 "abcd")) (by decide) (by decide)
    (fun c => ⟨by simp, by intro r hr; fin_cases hr <;> rfl⟩)

theorem allWs_splitWsAux :
    ∀ (l : List Char), l.all pyIsSpace = true → splitWsAux l [] = [] := by
  intro l
  induction l with
  | nil => intro _; rfl
  | cons c cs ih =>
    intro h
    rw [List.all_cons, Bool.and_eq_true] at h
    simp only [splitWsAux, h.1, if_true]
    exact ih h.2

theorem allWs_pySplitWs (s : String) (h : s.data.all pyIsSpace = true) :
    pySplitWs s = [] := by
  unfold pySplitWs
  rw [allWs_splitWsAux s.data h]
  rfl

theorem allWs_pyStrip (s : String) (h : s.data.all pyIsSpace = true) :
    pyStrip s = "" := by
  unfold pyStrip
  have h1 : s.data.dropWhile pyIsSpace = [] := by
    rw [List.dropWhile_eq_nil_iff]
    intro x hx
    exact (List.all_eq_true.mp h) x hx
  rw [h1]
  rfl

/-- C8 as amended: the app-service get_embedding fails on every blank
text (empty or whitespace-only): short blanks raise the empty-text
ValueError and long blanks raise the no-embeddings ValueError, so no
vector is ever returned for blank input by this variant. -/
theorem app_get_embedding_blank_fails
    (maxLen : ℕ) (tokenReps : String → List (List ℚ)) (text : String)
    (hblank : text.data.all pyIsSpace = true) :
    ∃ msg, app_get_embedding maxLen tokenReps text = .error msg := by
  unfold app_get_embedding
  by_cases hl : maxLen < text.length
  · rw [if_pos hl]
    have h2 : splitIntoChunks maxLen text = [] := by
      unfold splitIntoChunks
      rw [allWs_pySplitWs text hblank]
      rfl
    rw [h2]
    exact ⟨_, rfl⟩
  · rw [if_neg hl]
    exact ⟨_, by rw [if_pos (allWs_pyStrip text hblank)]⟩

/-- Witness for C8 as amended at a one-space text. -/
theorem app_get_embedding_blank_witness :
    ∃ msg, app_get_embedding 512 (fun _ => [[(1 : ℚ)]]) " " = .error msg :=
  app_get_embedding_blank_fails 512 (fun _ => [[(1 : ℚ)]]) " " (by decide)

/-- C8 counterexample: the top-level DocumentProcessor.get_embedding
has no blank check; on the empty string it mean-pools whatever token
representations the model produces for it (the special tokens) and
returns a vector. -/
theorem get_embedding_blank_returns_vector :
    ∃ v, dp_get_embedding 512 (fun _ => [[1, 2], [3, 4]]) "" = some v ∧
      v.length = 2 := by
  obtain ⟨v, hv, hl⟩ := npMeanAxis0_length [[1, 2], [3, 4]] 2 (by simp)
    (by intro r hr; fin_cases hr <;> rfl)
  refine ⟨v, ?_, hl⟩
  rw [← hv]
  rfl

/-- C4 counterexample: with an index of dimension 768 already present,
create_index called for the same name with dimension 512 succeeds as a
no-op instead of failing with DimensionMismatchError; the service code
compares no dimensions. -/
theorem create_index_mismatch_counterexample :
    es_create_index ⟨[("medical_documents", 768)], []⟩ "medical_documents" 512
      = (⟨[("medical_documents", 768)], []⟩, true) := by decide

/-- C4 as amended: create_index is a no-op returning success whenever an
index of that name exists, regardless of the requested dimension; no
duplicate index is created and no DimensionMismatchError is raised on a
mismatch (changing the dimension requires delete and recreate). -/
theorem create_index_existing_noop (st : ESState) (index_name : String)
    (dimensions : ℕ) (h : (alGet st.indexes index_name).isSome = true) :
    es_create_index st index_name dimensions = (st, true) := by
  unfold es_create_index
  rw [if_pos h]

/-- Witness for C4 as amended: the second create_index call of the
scenario, same name and dimension 768, is a no-op returning success. -/
theorem create_index_existing_noop_witness :
    es_create_index ⟨[("medical_documents", 768)], []⟩ "medical_documents" 768
      = (⟨[("medical_documents", 768)], []⟩, true) :=
  create_index_existing_noop ⟨[("medical_documents", 768)], []⟩
    "medical_documents" 768 (by decide)

/-- C5 counterexample: against an index of dimension 768 and a backend
that accepts the call, index_document submits a document whose embedding
has length 2, performs the write, and returns success; it does not fail
with InvalidVectorError. -/
theorem index_document_wrong_length_counterexample :
    (es_index_document (fun _ _ => true) ⟨[("idx", 768)], []⟩ "idx"
        ⟨[1, 2], "x"⟩).2 = true ∧
    (es_index_document (fun _ _ => true) ⟨[("idx", 768)], []⟩ "idx"
        ⟨[1, 2], "x"⟩).1.docs = [("idx", ⟨[1, 2], "x"⟩)] :=
  ⟨rfl, rfl⟩

/-- C5 as amended: index_document performs no vector-length validation;
even when the embedding length differs from the index's configured
dimension, the document is forwarded to the backend unchanged, and a
backend that accepts it stores the document with the call reporting
success. Rejection, if any, is the external backend's, surfaced as a
False return rather than an InvalidVectorError. -/
theorem index_document_no_validation
    (accept : String → VDoc → Bool) (st : ESState) (index_name : String)
    (document : VDoc) (dims : ℕ)
    (hdim : alGet st.indexes index_name = some dims)
    (hmis : document.embedding.length ≠ dims)
    (hacc : accept index_name document = true) :
    es_index_document accept st index_name document
      = ({ st with docs := st.docs ++ [(index_name, document)] }, true) := by
  unfold es_index_document
  rw [if_pos hacc]

/-- Witness for C5 as amended at a two-component vector against
dimension 768. -/
theorem index_document_no_validation_witness :
    es_index_document (fun _ _ => true) ⟨[("idx", 768)], []⟩ "idx"
        ⟨[1, 2], "x"⟩
      = (⟨[("idx", 768)], [("idx", ⟨[1, 2], "x"⟩)]⟩, true) :=
  index_document_no_validation (fun _ _ => true) ⟨[("idx", 768)], []⟩ "idx"
    ⟨[1, 2], "x"⟩ 768 (by decide) (by decide) rfl

/-- C9: the two configured backends are not interchangeable as the
shared interface demands: an Elasticsearch search hit has the three
fields id, score and source while an OpenSearch search hit has eight
flat fields, and OpenSearchService.search drops the index_name
parameter that the declared base interface requires. -/
theorem backend_shapes_differ :
    esSearchHitFields ≠ osSearchHitFields ∧
    baseSearchParams ≠ osSearchParams := by decide

theorem stepWindow_acc (extractKw : String → List String) (page : ℕ)
    (s : SegState) (chunk : String) :
    (stepWindow extractKw page s chunk).acc = s.acc ∨
    ∃ c : PChunk, (stepWindow extractKw page s chunk).acc = s.acc ++ [c] ∧
      c.text = chunk ∧ is_template_text chunk = false ∧
      c.page_number = pyOrNat (extract_page_from_text chunk) page := by
  unfold stepWindow
  by_cases h1 : pyStrip chunk = ""
  · rw [if_pos h1]
    exact Or.inl rfl
  · rw [if_neg h1]
    by_cases h2 : is_template_text chunk = true
    · rw [if_pos h2]
      exact Or.inl rfl
    · rw [if_neg h2]
      by_cases h3 : (pyIsUpperStr chunk || matchTitlePat chunk) = true
      · rw [if_pos h3]
        exact Or.inl rfl
      · rw [if_neg h3]
        by_cases h4 : 50 ≤ (pyStrip chunk).length
        · rw [if_pos h4]
          refine Or.inr ⟨_, rfl, rfl, ?_, rfl⟩
          revert h2
          cases is_template_text chunk <;> simp
        · rw [if_neg h4]
          exact Or.inl rfl

theorem stepWindow_template_free (extractKw : String → List String)
    (page : ℕ) (s : SegState) (w : String)
    (hP : ∀ c ∈ s.acc, is_template_text c.text = false) :
    ∀ c ∈ (stepWindow extractKw page s w).acc,
      is_template_text c.text = false := by
  intro c hc
  rcases stepWindow_acc extractKw page s w with h | ⟨c₀, h, ht, hf, _⟩
  · rw [h] at hc
    exact hP c hc
  · rw [h] at hc
    rcases List.mem_append.mp hc with hc | hc
    · exact hP c hc
    · have hceq := List.mem_singleton.mp hc
      subst hceq
      rw [ht]
      exact hf

set_option maxHeartbeats 1000000 in
theorem processPages_template_free
    (splitText extractKw : String → List String) (pcs : List (String × ℕ)) :
    ∀ c ∈ processPages splitText extractKw pcs,
      is_template_text c.text = false := by
  unfold processPages
  exact foldl_preserve
    (fun s => ∀ c ∈ s.acc, is_template_text c.text = false)
    (fun s pc => (splitText pc.1).foldl (stepWindow extractKw pc.2) s)
    (fun s pc h =>
      foldl_preserve
        (fun st => ∀ c ∈ st.acc, is_template_text c.text = false)
        (stepWindow extractKw pc.2)
        (fun st w hP => stepWindow_template_free extractKw pc.2 st w hP)
        (splitText pc.1) s h)
    pcs ⟨"main", [], []⟩ (by intro c hc; simp at hc)

/-- C6 as amended: a chunk emitted by get_chunks_with_pages whose text
matches the boilerplate filter can only be the single fallback chunk
carrying the full document text; every chunk emitted by the window loop
has passed the filter, so boilerplate survives only through the
zero-chunk fallback path. -/
theorem chunks_template_free_except_fallback
    (pageSplit splitText extractKw : String → List String) (text : String)
    (c : PChunk)
    (hc : c ∈ get_chunks_with_pages pageSplit splitText extractKw text)
    (ht : is_template_text c.text = true) :
    get_chunks_with_pages pageSplit splitText extractKw text
      = [⟨text, 1, "main", text, extractKw text⟩] := by
  unfold get_chunks_with_pages at hc ⊢
  by_cases hcond :
      ((processPages splitText extractKw (pageChunks pageSplit text)).isEmpty
        && (pyStrip text != "")) = true
  · rw [if_pos hcond]
  · rw [if_neg hcond] at hc
    rw [processPages_template_free splitText extractKw
      (pageChunks pageSplit text) c hc] at ht
    simp at ht

/-- C6 counterexample: the document consisting only of the template
line Record Index yields zero window chunks, so the fallback chunk is
emitted with the full text, which the boilerplate filter matches; the
emitted chunk therefore contains template text. The identity page and
window splitters agree with the external regex and langchain splitters
on this input, which has no page-break marker and fits one window. -/
theorem fallback_chunk_template_counterexample :
    ∃ c ∈ get_chunks_with_pages (fun t => [t]) (fun t => [t]) (fun _ => [])
        "Record Index", is_template_text c.text = true := by
  refine ⟨⟨"Record Index", 1, "main", "Record Index", []⟩, ?_, by decide⟩
  decide

/-- Witness for C6 as amended at the Record Index document: the only
template-matching chunk is the fallback chunk itself. -/
theorem chunks_template_free_witness :
    get_chunks_with_pages (fun t => [t]) (fun t => [t]) (fun _ => [])
        "Record Index"
      = [⟨"Record Index", 1, "main", "Record Index", []⟩] :=
  chunks_template_free_except_fallback (fun t => [t]) (fun t => [t])
    (fun _ => []) "Record Index"
    ⟨"Record Index", 1, "main", "Record Index", []⟩ (by decide) (by decide)

theorem notOverridden_page (c : PChunk) (pg : ℕ)
    (h : notOverridden c = true) :
    pyOrNat (extract_page_from_text c.text) pg = pg := by
  unfold notOverridden at h
  unfold pyOrNat
  cases hext : extract_page_from_text c.text with
  | none => rfl
  | some n =>
    rw [hext] at h
    simp only [beq_iff_eq] at h
    subst h
    simp

theorem filteredPages_append (a b : List PChunk) :
    filteredPages (a ++ b) = filteredPages a ++ filteredPages b := by
  simp [filteredPages, List.filter_append]

theorem pagesByWordsGo_pages (fuel : ℕ) :
    ∀ (pg : ℕ) (ws : List String),
      List.Pairwise (· ≤ ·) ((pagesByWordsGo fuel pg ws).map Prod.snd) ∧
      ∀ x ∈ (pagesByWordsGo fuel pg ws).map Prod.snd, pg ≤ x := by
  induction fuel with
  | zero =>
    intro pg ws
    constructor
    · simp [pagesByWordsGo]
    · simp [pagesByWordsGo]
  | succ fuel ih =>
    intro pg ws
    match ws with
    | [] =>
      constructor
      · simp [pagesByWordsGo]
      · simp [pagesByWordsGo]
    | w :: rest =>
      simp only [pagesByWordsGo, List.map_cons]
      obtain ⟨hpw, hlb⟩ := ih (pg + 1) (List.drop 500 (w :: rest))
      constructor
      · exact List.Pairwise.cons
          (fun x hx => le_trans (by omega) (hlb x hx)) hpw
      · intro x hx
        rcases List.mem_cons.mp hx with hx | hx
        · omega
        · have := hlb x hx
          omega

theorem numberParts_pages :
    ∀ (ps : List String) (i : ℕ),
      List.Pairwise (· ≤ ·) ((numberParts i ps).map Prod.snd) ∧
      ∀ x ∈ (numberParts i ps).map Prod.snd, i + 1 ≤ x := by
  intro ps
  induction ps with
  | nil =>
    intro i
    constructor
    · simp [numberParts]
    · simp [numberParts]
  | cons p ps ih =>
    intro i
    by_cases h : pyStrip p = ""
    · simp only [numberParts, if_pos h]
      obtain ⟨hpw, hlb⟩ := ih (i + 1)
      exact ⟨hpw, fun x hx => by have := hlb x hx; omega⟩
    · simp only [numberParts, if_neg h, List.map_cons]
      obtain ⟨hpw, hlb⟩ := ih (i + 1)
      refine ⟨List.Pairwise.cons (fun x hx => ?_) hpw, ?_⟩
      · have := hlb x hx
        omega
      · intro x hx
        rcases List.mem_cons.mp hx with hx | hx
        · omega
        · have := hlb x hx
          omega

theorem pageChunks_pages (pageSplit : String → List String) (text : String) :
    List.Pairwise (· ≤ ·) ((pageChunks pageSplit text).map Prod.snd) := by
  unfold pageChunks
  by_cases h : 1 < (pageSplit text).length
  · rw [if_pos h]
    exact (numberParts_pages (pageSplit text) 0).1
  · rw [if_neg h]
    unfold pagesByWords
    exact (pagesByWordsGo_pages (pySplitWs text).length 1 (pySplitWs text)).1

theorem stepWindow_pages (extractKw : String → List String) (pg : ℕ)
    (s : SegState) (w : String)
    (h : List.Pairwise (· ≤ ·) (filteredPages s.acc) ∧
      ∀ x ∈ filteredPages s.acc, x ≤ pg) :
    List.Pairwise (· ≤ ·) (filteredPages (stepWindow extractKw pg s w).acc) ∧
    ∀ x ∈ filteredPages (stepWindow extractKw pg s w).acc, x ≤ pg := by
  rcases stepWindow_acc extractKw pg s w with hacc | ⟨c, hacc, ht, _, hp⟩
  · rw [hacc]
    exact h
  · rw [hacc, filteredPages_append]
    by_cases hno : notOverridden c = true
    · have hpage : c.page_number = pg := by
        rw [hp, ← ht]
        exact notOverridden_page c pg hno
      have hsingle : filteredPages [c] = [pg] := by
        simp [filteredPages, hno, hpage]
      rw [hsingle]
      constructor
      · rw [List.pairwise_append]
        refine ⟨h.1, by simp, ?_⟩
        intro a ha b hb
        rcases List.mem_singleton.mp hb with rfl
        exact h.2 a ha
      · intro x hx
        rcases List.mem_append.mp hx with hx | hx
        · exact h.2 x hx
        · exact le_of_eq (List.mem_singleton.mp hx)
    · have hf : notOverridden c = false := Bool.eq_false_iff.mpr hno
      have hsingle : filteredPages [c] = [] := by
        simp [filteredPages, hf]
      rw [hsingle, List.append_nil]
      exact h

set_option maxHeartbeats 1000000 in
theorem processPagesFold_pages (splitText extractKw : String → List String) :
    ∀ (pcs : List (String × ℕ)) (s : SegState),
      List.Pairwise (· ≤ ·) (pcs.map Prod.snd) →
      List.Pairwise (· ≤ ·) (filteredPages s.acc) →
      (∀ x ∈ filteredPages s.acc, ∀ p ∈ pcs.map Prod.snd, x ≤ p) →
      List.Pairwise (· ≤ ·) (filteredPages
        (pcs.foldl
          (fun st pc => (splitText pc.1).foldl (stepWindow extractKw pc.2) st)
          s).acc) := by
  intro pcs
  induction pcs with
  | nil =>
    intro s _ hpw _
    exact hpw
  | cons pc pcs ih =>
    intro s hpages hpw hbound
    simp only [List.map_cons, List.pairwise_cons] at hpages
    simp only [List.foldl_cons]
    have hInv := foldl_preserve
      (fun st => List.Pairwise (· ≤ ·) (filteredPages st.acc) ∧
        ∀ x ∈ filteredPages st.acc, x ≤ pc.2)
      (stepWindow extractKw pc.2)
      (fun st w h => stepWindow_pages extractKw pc.2 st w h)
      (splitText pc.1) s
      ⟨hpw, fun x hx => hbound x hx pc.2 (by simp)⟩
    apply ih
    · exact hpages.2
    · exact hInv.1
    · intro x hx p hp
      have hxle : x ≤ pc.2 := hInv.2 x hx
      have hple : pc.2 ≤ p := hpages.1 p hp
      omega

/-- C7: for every document, every page-break splitter, every window
splitter and every keyword extractor, the page numbers of the chunks
emitted by get_chunks_with_pages, taken in emission order and excluding
chunks whose page an explicit in-text marker overrode, are monotonically
non-decreasing. -/
theorem chunk_pages_monotone
    (pageSplit splitText extractKw : String → List String) (text : String) :
    List.Pairwise (· ≤ ·)
      (filteredPages
        (get_chunks_with_pages pageSplit splitText extractKw text)) := by
  unfold get_chunks_with_pages
  by_cases hcond :
      ((processPages splitText extractKw (pageChunks pageSplit text)).isEmpty
        && (pyStrip text != "")) = true
  · rw [if_pos hcond]
    cases hno : notOverridden ⟨text, 1, "main", text, extractKw text⟩ <;>
      simp [filteredPages, hno]
  · rw [if_neg hcond]
    unfold processPages
    apply processPagesFold_pages splitText extractKw
      (pageChunks pageSplit text) ⟨"main", [], []⟩
      (pageChunks_pages pageSplit text)
    · simp [filteredPages]
    · intro x hx
      simp [filteredPages] at hx
